import Mathlib

/-!
Shallow embedding of the batch evaluation engine in `src/query_llms.py`.

The two response parsers (`extract_answer`, `extract_evaluation`) are embedded
together with the exact backtracking semantics of the two Python regular
expressions they use; `process_combination` and the scheduler loop of `main`
are embedded with the remote calls abstracted into an oracle supplying the
(possibly failing) response texts, and the ledger file abstracted as the list
of appended records.
-/

/-! ## Python string primitives -/

/-- Python `\s` / `str.strip()` whitespace over ASCII:
space, tab, newline, carriage return, vertical tab, form feed. -/
def pyIsSpace (c : Char) : Bool :=
  c == ' ' || c == '\t' || c == '\n' || c == '\r' || c == '\x0b' || c == '\x0c'

/-- Python `str.strip()`: remove leading and trailing whitespace. -/
def pyStrip (l : List Char) : List Char :=
  ((l.dropWhile pyIsSpace).reverse.dropWhile pyIsSpace).reverse

/-- Python `str.split("\n")`: split at every newline, keeping empty pieces. -/
def pySplitLines : List Char → List (List Char)
  | [] => [[]]
  | c :: rest =>
    match pySplitLines rest with
    | [] => [[c]]
    | l :: ls => if c = '\n' then [] :: l :: ls else (c :: l) :: ls

/-- The character `\x7b` (opening curly brace). -/
def lbrace : Char := Char.ofNat 123

/-- The character `\x7d` (closing curly brace). -/
def rbrace : Char := Char.ofNat 125

/-! ## The regular expression searches of `query_llms.py`

`re.search(r".*answer:\s*\x7b?(.*)?\x7d?", line, re.IGNORECASE)`:
the leading greedy `.*` makes the search match at the rightmost position
where the literal `answer:` (case-insensitively) is followed by the rest of
the pattern; `\s*` greedily eats whitespace, an optional brace is consumed,
and the greedy `(.*)?` then captures everything up to the end of the line
(the final optional `\x7d?` matches the empty string, so the closing brace,
if any, stays inside the capture).

`re.search(r".*category:\s*\x7b?([a-zA-Z]+)\x7d?\.?", line, re.IGNORECASE)`:
same rightmost-occurrence discipline; a position only matches when, after
the optional whitespace and optional opening brace, at least one ASCII
letter follows, and the capture is the maximal letter run. -/

/-- Match of `answer:\s*\x7b?(.*)?\x7d?` (case-insensitive) at the head of `l`,
returning the capture group. -/
def matchAnswerHere (l : List Char) : Option (List Char) :=
  if (l.take 7).map Char.toLower = "answer:".data then
    let rest := (l.drop 7).dropWhile pyIsSpace
    some (if rest.head? = some lbrace then rest.tail else rest)
  else none

/-- `re.search` of `.*answer:...` on a line: the rightmost matching position
wins, i.e. the latest suffix at which `matchAnswerHere` succeeds. -/
def searchAnswer : List Char → Option (List Char)
  | [] => none
  | c :: rest =>
    match searchAnswer rest with
    | some g => some g
    | none => matchAnswerHere (c :: rest)

/-- Match of `category:\s*\x7b?([a-zA-Z]+)\x7d?\.?` (case-insensitive) at the
head of `l`, returning the capture group. -/
def matchCategoryHere (l : List Char) : Option (List Char) :=
  if (l.take 9).map Char.toLower = "category:".data then
    let rest := (l.drop 9).dropWhile pyIsSpace
    let rest := if rest.head? = some lbrace then rest.tail else rest
    let word := rest.takeWhile Char.isAlpha
    if word = [] then none else some word
  else none

/-- `re.search` of `.*category:...` on a line: the rightmost matching
position wins. -/
def searchCategory : List Char → Option (List Char)
  | [] => none
  | c :: rest =>
    match searchCategory rest with
    | some g => some g
    | none => matchCategoryHere (c :: rest)

/-! ## The response parsers -/

/-- The `for line in reversed(lines)` loop of `extract_answer`: each line is
stripped and searched; the loop returns on the first hit. -/
def firstAnswerMatch : List (List Char) → Option (List Char)
  | [] => none
  | line :: rest =>
    match searchAnswer (pyStrip line) with
    | some g => some g
    | none => firstAnswerMatch rest

/-- `extract_answer` of `query_llms.py`: strip the response, split into
lines, scan the lines from the end and return the stripped capture of the
first line (from the end) containing `answer:`; if no line matches, return
the original response unchanged. -/
def extract_answer (response : String) : String :=
  let lines := pySplitLines (pyStrip response.data)
  match firstAnswerMatch lines.reverse with
  | some g => String.mk (pyStrip g)
  | none => response

/-- The `CATEGORIES` dictionary of `query_llms.py` (key/emoji pairs). -/
def CATEGORIES : List (String × String) :=
  [("CORRECT", "✅"), ("INCORRECT", "❌"), ("DOUBT", "⬜"), ("ERROR", "❓")]

/-- The `evaluation` variable of `extract_evaluation` after its line loop:
starting from `""`, every matching line overwrites it while iterating over
`reversed(lines)` (the loop has no early exit, so the final value comes from
the first matching line of the original text). -/
def captured_evaluation (response : String) : List Char :=
  let lines := pySplitLines (pyStrip response.data)
  lines.reverse.foldl
    (fun acc line =>
      match searchCategory (pyStrip line) with
      | some g => pyStrip g
      | none => acc) []

/-- `extract_evaluation` of `query_llms.py`: `none` models the raised
`ValueError` when the captured word is not a key of `CATEGORIES`
(dictionary membership is case-sensitive). -/
def extract_evaluation (response : String) : Option String :=
  let evaluation := String.mk (captured_evaluation response)
  if evaluation ∈ CATEGORIES.map Prod.fst then some evaluation else none

/-! ## Task units -/

/-- A question record from the question store. -/
structure Question where
  question : String
  answer : String
  deriving DecidableEq

/-- One serialized output record of `process_combination`. -/
structure ResultRecord where
  question : String
  expected_answer : String
  model : String
  suggest_empty : Bool
  response : String
  received_answer : String
  evaluation : String
  deriving DecidableEq

/-- `process_combination` of `query_llms.py`, with the two `query_model`
calls abstracted into their returned texts: `none` for a response models a
raised transport exception. Any exception (a failed call or the
`ValueError` of `extract_evaluation`) is caught by the `except` block and
yields `none`; a judged category of `ERROR` also yields `none`; otherwise
the result record is built exactly as in the source. -/
def process_combination (q : Question) (system_type : String) (system : String)
    (model_name : String) (modelResponse : Option String)
    (judgeResponse : Option String) : Option ResultRecord :=
  match modelResponse with
  | none => none
  | some model_response =>
    let received_answer := extract_answer model_response
    match judgeResponse with
    | none => none
    | some received_evaluation =>
      match extract_evaluation received_evaluation with
      | none => none
      | some evaluation =>
        if evaluation = "ERROR" then none
        else some
          { question := q.question
            expected_answer := q.answer
            model := model_name
            suggest_empty := system_type == "suggest_empty"
            response := model_response
            received_answer := received_answer
            evaluation := evaluation }

/-! ## The scheduler loop of `main` -/

/-- In-memory state of the `as_completed` loop in `main`:
the `successful_results` buffer, the `completed_count` counter, and the
history of append calls already issued to the output file. -/
structure SchedulerState where
  successful_results : List ResultRecord
  completed_count : Nat
  flushes : List (List ResultRecord)
  deriving DecidableEq

/-- One iteration of the `as_completed` loop: count the completion, buffer a
non-`None` result, and on every 50th completion append the buffer to the
ledger; the flush writes `reversed(successful_results)` while popping each
written element, so it emits the buffer in reverse order and clears it. -/
def schedulerStep (s : SchedulerState) (result : Option ResultRecord) :
    SchedulerState :=
  let successful_results :=
    match result with
    | some r => s.successful_results ++ [r]
    | none => s.successful_results
  let completed_count := s.completed_count + 1
  if completed_count % 50 = 0 then
    { successful_results := []
      completed_count := completed_count
      flushes := s.flushes ++ [successful_results.reverse] }
  else
    { successful_results := successful_results
      completed_count := completed_count
      flushes := s.flushes }

/-- The whole completion loop of `main` over a given completion stream,
followed by the unconditional final append of the residual buffer. Returns
the list of append calls issued to the ledger file, in order. -/
def run_scheduler (stream : List (Option ResultRecord)) :
    List (List ResultRecord) :=
  let final := stream.foldl schedulerStep ⟨[], 0, []⟩
  final.flushes ++ [final.successful_results]

/-! ## Combination space, dedup against the ledger, and a full run -/

/-- A work combination as built in `main`: question, system type, system
prompt text, model name. -/
abbrev Combination := Question × String × String × String

/-- The dedup key used both for `existing_results` and for skipping:
`(question["question"], model_name, suggest_empty)`. -/
abbrev CombinationKey := String × String × Bool

/-- The key triple under which a persisted record is indexed on resume. -/
def ResultRecord.key (r : ResultRecord) : CombinationKey :=
  (r.question, r.model, r.suggest_empty)

/-- The key of a combination (`suggest_empty = system_type == "suggest_empty"`). -/
def combinationKey (c : Combination) : CombinationKey :=
  (c.1.question, c.2.2.2, c.2.1 == "suggest_empty")

/-- `it.product(questions, system.items(), models)` of `main`. -/
def allCombinations (questions : List Question)
    (system : List (String × String)) (models : List String) :
    List Combination :=
  questions.flatMap fun q =>
    system.flatMap fun st =>
      models.map fun m => (q, st.1, st.2, m)

/-- The `existing_results` key set loaded from the output file. -/
def existingResults (ledger : List ResultRecord) : List CombinationKey :=
  ledger.map ResultRecord.key

/-- The task list of `main`: every combination of the cross product whose
key is not among `existing_results`. -/
def pendingCombinations (questions : List Question)
    (system : List (String × String)) (models : List String)
    (ledger : List ResultRecord) : List Combination :=
  (allCombinations questions system models).filter
    fun c => decide (combinationKey c ∉ existingResults ledger)

/-- The environment of one run: for each combination, the text returned by
the answering call and by the judging call (`none` = the call raised). -/
abbrev Oracle := Combination → Option String × Option String

/-- The task coroutine built for one pending combination. -/
def runTask (oracle : Oracle) (c : Combination) : Option ResultRecord :=
  process_combination c.1 c.2.1 c.2.2.1 c.2.2.2 (oracle c).1 (oracle c).2

/-- The completion stream of one run (one outcome per pending combination;
`asyncio.as_completed` yields them in some order — the embedding uses task
order, and every property proved below is order-insensitive). -/
def taskStream (questions : List Question) (system : List (String × String))
    (models : List String) (ledger : List ResultRecord) (oracle : Oracle) :
    List (Option ResultRecord) :=
  (pendingCombinations questions system models ledger).map (runTask oracle)

/-- All records appended to the ledger file during one run. -/
def newRecords (questions : List Question) (system : List (String × String))
    (models : List String) (ledger : List ResultRecord) (oracle : Oracle) :
    List ResultRecord :=
  (run_scheduler (taskStream questions system models ledger oracle)).flatten

/-- The ledger file contents after one full run of `main` starting from the
given ledger contents. -/
def main_run (questions : List Question) (system : List (String × String))
    (models : List String) (ledger : List ResultRecord) (oracle : Oracle) :
    List ResultRecord :=
  ledger ++ newRecords questions system models ledger oracle

/-- Everything a scheduler state accounts for: records already flushed to
the ledger plus the in-memory buffer. -/
def allRecords (s : SchedulerState) : List ResultRecord :=
  s.flushes.flatten ++ s.successful_results


/-! ## Concrete instances used in witnesses and counterexamples -/

/-- A tiny question store for concrete runs. -/
def demoQuestions : List Question := [⟨"Q", "A"⟩]

/-- The two system prompts of `main`, in dictionary insertion order. -/
def demoSystem : List (String × String) := [("base", "b"), ("suggest_empty", "e")]

/-- A one-model roster. -/
def demoModels : List String := ["m"]

/-- An environment in which every remote call succeeds and parses. -/
def demoOracle : Oracle := fun _ => (some "Answer: A", some "Category: CORRECT.")

/-- A fixed successful result record. -/
def cexRecord : ResultRecord :=
  ⟨"q", "a", "m", false, "resp", "ans", "CORRECT"⟩

/-- A completion stream of 100 task outcomes in which only the 1st and the
51st task succeed. -/
def cexStream : List (Option ResultRecord) :=
  (List.range 100).map fun i => if i = 0 ∨ i = 50 then some cexRecord else none

/-! ## Helper lemmas on the string primitives -/

theorem toLower_eq_colon {c : Char} (h : Char.toLower c = ':') : c = ':' := by
  unfold Char.toLower at h
  simp only at h
  by_cases hr : c.toNat ≥ 65 ∧ c.toNat ≤ 90
  · exfalso
    rw [if_pos hr] at h
    obtain ⟨h1, h2⟩ := hr
    set n := c.toNat with hn
    interval_cases n <;> exact absurd (congrArg Char.toNat h) (by decide)
  · rwa [if_neg hr] at h

theorem dropWhile_eq_self_of_head {l : List Char} {a : Char} {p : Char → Bool}
    (h : l.head? = some a) (ha : p a = false) : l.dropWhile p = l := by
  cases l with
  | nil => rfl
  | cons x xs =>
    injection h with h
    subst h
    simp [List.dropWhile_cons, ha]

theorem pyStrip_eq_self {l : List Char} {a b : Char}
    (h1 : l.head? = some a) (ha : pyIsSpace a = false)
    (h2 : l.getLast? = some b) (hb : pyIsSpace b = false) : pyStrip l = l := by
  unfold pyStrip
  rw [dropWhile_eq_self_of_head h1 ha]
  rw [dropWhile_eq_self_of_head (by rw [List.head?_reverse]; exact h2) hb]
  exact List.reverse_reverse l

theorem pyStrip_of_no_space {l : List Char} (h : ∀ c ∈ l, pyIsSpace c = false) :
    pyStrip l = l := by
  cases l with
  | nil => rfl
  | cons x xs =>
    refine pyStrip_eq_self (a := x) (b := (x :: xs).getLast (by simp)) rfl
      (h x (by simp)) (List.getLast?_eq_getLast _ _) ?_
    exact h _ (List.getLast_mem _)

theorem pySplitLines_no_newline {l : List Char} (h : '\n' ∉ l) :
    pySplitLines l = [l] := by
  induction l with
  | nil => rfl
  | cons c rest ih =>
    have hc : c ≠ '\n' := fun hcc => h (hcc ▸ List.mem_cons_self _ _)
    have hr : '\n' ∉ rest := fun hm => h (List.mem_cons_of_mem _ hm)
    simp [pySplitLines, ih hr, hc]

theorem pySplitLines_two_lines {x y : List Char} (hx : '\n' ∉ x) (hy : '\n' ∉ y) :
    pySplitLines (x ++ '\n' :: y) = [x, y] := by
  induction x with
  | nil => simp [pySplitLines, pySplitLines_no_newline hy]
  | cons c rest ih =>
    have hc : c ≠ '\n' := fun hcc => hx (hcc ▸ List.mem_cons_self _ _)
    have hr : '\n' ∉ rest := fun hm => hx (List.mem_cons_of_mem _ hm)
    simp [pySplitLines, ih hr, hc]

/-! ## Lemmas about the embedded regular expression searches -/

theorem searchAnswer_cons (c : Char) (l : List Char) :
    searchAnswer (c :: l) =
      match searchAnswer l with
      | some g => some g
      | none => matchAnswerHere (c :: l) := rfl

theorem searchCategory_cons (c : Char) (l : List Char) :
    searchCategory (c :: l) =
      match searchCategory l with
      | some g => some g
      | none => matchCategoryHere (c :: l) := rfl

theorem matchAnswerHere_no_colon {l : List Char} (h : ':' ∉ l) :
    matchAnswerHere l = none := by
  unfold matchAnswerHere
  rw [if_neg]
  intro he
  have hm : ':' ∈ (l.take 7).map Char.toLower := by rw [he]; decide
  obtain ⟨a, ha, hal⟩ := List.mem_map.mp hm
  exact h (List.take_subset _ _ (toLower_eq_colon hal ▸ ha))

theorem matchCategoryHere_no_colon {l : List Char} (h : ':' ∉ l) :
    matchCategoryHere l = none := by
  unfold matchCategoryHere
  rw [if_neg]
  intro he
  have hm : ':' ∈ (l.take 9).map Char.toLower := by rw [he]; decide
  obtain ⟨a, ha, hal⟩ := List.mem_map.mp hm
  exact h (List.take_subset _ _ (toLower_eq_colon hal ▸ ha))

theorem searchAnswer_no_colon {l : List Char} (h : ':' ∉ l) :
    searchAnswer l = none := by
  induction l with
  | nil => rfl
  | cons c rest ih =>
    have hr : ':' ∉ rest := fun hm => h (List.mem_cons_of_mem _ hm)
    rw [searchAnswer_cons, ih hr]
    exact matchAnswerHere_no_colon h

theorem searchCategory_no_colon {l : List Char} (h : ':' ∉ l) :
    searchCategory l = none := by
  induction l with
  | nil => rfl
  | cons c rest ih =>
    have hr : ':' ∉ rest := fun hm => h (List.mem_cons_of_mem _ hm)
    rw [searchCategory_cons, ih hr]
    exact matchCategoryHere_no_colon h

theorem matchAnswerHere_head_ne {c : Char} (l : List Char)
    (h : Char.toLower c ≠ 'a') : matchAnswerHere (c :: l) = none := by
  unfold matchAnswerHere
  rw [if_neg]
  intro he
  rw [show (7 : Nat) = 6 + 1 from rfl, List.take_succ_cons, List.map_cons] at he
  exact h (List.cons.injEq .. ▸ he).1

theorem matchCategoryHere_head_ne {c : Char} (l : List Char)
    (h : Char.toLower c ≠ 'c') : matchCategoryHere (c :: l) = none := by
  unfold matchCategoryHere
  rw [if_neg]
  intro he
  rw [show (9 : Nat) = 8 + 1 from rfl, List.take_succ_cons, List.map_cons] at he
  exact h (List.cons.injEq .. ▸ he).1

theorem searchAnswer_cons_of_none {c : Char} {l : List Char}
    (hm : matchAnswerHere (c :: l) = none) (hs : searchAnswer l = none) :
    searchAnswer (c :: l) = none := by
  rw [searchAnswer_cons, hs]
  exact hm

theorem searchCategory_cons_of_none {c : Char} {l : List Char}
    (hm : matchCategoryHere (c :: l) = none) (hs : searchCategory l = none) :
    searchCategory (c :: l) = none := by
  rw [searchCategory_cons, hs]
  exact hm

theorem isAlpha_facts {ch : Char} (h : ch.isAlpha = true) :
    ch ≠ ':' ∧ ch ≠ '\n' ∧ ch ≠ lbrace ∧ pyIsSpace ch = false := by
  refine ⟨fun he => absurd h (by subst he; decide),
    fun he => absurd h (by subst he; decide),
    fun he => absurd h (by subst he; decide), ?_⟩
  by_contra hsp
  rw [Bool.not_eq_false] at hsp
  simp only [pyIsSpace, Bool.or_eq_true, beq_iff_eq] at hsp
  rcases hsp with ((((h1 | h1) | h1) | h1) | h1) | h1 <;> subst h1 <;>
    exact absurd h (by decide)

theorem takeWhile_append_singleton {p : Char → Bool} {l : List Char} {y : Char}
    (h : ∀ x ∈ l, p x = true) (hy : p y = false) :
    (l ++ [y]).takeWhile p = l := by
  induction l with
  | nil => simp [List.takeWhile_cons, hy]
  | cons a rest ih =>
    simp only [List.cons_append, List.takeWhile_cons, h a (by simp), if_true]
    rw [ih (fun x hx => h x (by simp [hx]))]

/-- The answering regex on a line of the exact shape `Answer: \x7bCONTENT\x7d`
(with colon-free content) matches at position 0 and captures the content
together with the closing brace. -/
theorem searchAnswer_answer_line (c : List Char) (hc : ':' ∉ c) :
    searchAnswer ("Answer: ".data ++ lbrace :: (c ++ [rbrace])) =
      some (c ++ [rbrace]) := by
  have hinner : searchAnswer (lbrace :: (c ++ [rbrace])) = none := by
    apply searchAnswer_no_colon
    intro hm
    rcases List.mem_cons.mp hm with h | h
    · exact absurd h (by decide)
    · rcases List.mem_append.mp h with h | h
      · exact hc h
      · rw [List.mem_singleton] at h
        exact absurd h (by decide)
  have h1 : searchAnswer (' ' :: lbrace :: (c ++ [rbrace])) = none :=
    searchAnswer_cons_of_none (matchAnswerHere_head_ne _ (by decide)) hinner
  have h2 : searchAnswer (':' :: ' ' :: lbrace :: (c ++ [rbrace])) = none :=
    searchAnswer_cons_of_none (matchAnswerHere_head_ne _ (by decide)) h1
  have h3 : searchAnswer ('r' :: ':' :: ' ' :: lbrace :: (c ++ [rbrace])) = none :=
    searchAnswer_cons_of_none (matchAnswerHere_head_ne _ (by decide)) h2
  have h4 : searchAnswer ('e' :: 'r' :: ':' :: ' ' :: lbrace :: (c ++ [rbrace])) = none :=
    searchAnswer_cons_of_none (matchAnswerHere_head_ne _ (by decide)) h3
  have h5 : searchAnswer ('w' :: 'e' :: 'r' :: ':' :: ' ' :: lbrace :: (c ++ [rbrace])) = none :=
    searchAnswer_cons_of_none (matchAnswerHere_head_ne _ (by decide)) h4
  have h6 : searchAnswer ('s' :: 'w' :: 'e' :: 'r' :: ':' :: ' ' :: lbrace :: (c ++ [rbrace])) = none :=
    searchAnswer_cons_of_none (matchAnswerHere_head_ne _ (by decide)) h5
  have h7 : searchAnswer ('n' :: 's' :: 'w' :: 'e' :: 'r' :: ':' :: ' ' :: lbrace :: (c ++ [rbrace])) = none :=
    searchAnswer_cons_of_none (matchAnswerHere_head_ne _ (by decide)) h6
  show searchAnswer ('A' :: 'n' :: 's' :: 'w' :: 'e' :: 'r' :: ':' :: ' ' ::
    lbrace :: (c ++ [rbrace])) = some (c ++ [rbrace])
  rw [searchAnswer_cons, h7]
  rfl

/-- The judging regex on a line of the exact shape `Category: WORD.` (with a
nonempty all-letter word) matches at position 0 and captures the word. -/
theorem searchCategory_category_line (w0 : Char) (w' : List Char)
    (halpha : ∀ ch ∈ w0 :: w', ch.isAlpha = true) :
    searchCategory ("Category: ".data ++ (w0 :: (w' ++ ['.']))) =
      some (w0 :: w') := by
  have hw0 := isAlpha_facts (halpha w0 (List.mem_cons_self _ _))
  have hinner : searchCategory (w0 :: (w' ++ ['.'])) = none := by
    apply searchCategory_no_colon
    intro hm
    rcases List.mem_cons.mp hm with h | h
    · exact hw0.1 h.symm
    · rcases List.mem_append.mp h with h | h
      · exact (isAlpha_facts (halpha _ (List.mem_cons_of_mem _ h))).1 rfl
      · rw [List.mem_singleton] at h
        exact absurd h (by decide)
  have h1 : searchCategory (' ' :: w0 :: (w' ++ ['.'])) = none :=
    searchCategory_cons_of_none (matchCategoryHere_head_ne _ (by decide)) hinner
  have h2 : searchCategory (':' :: ' ' :: w0 :: (w' ++ ['.'])) = none :=
    searchCategory_cons_of_none (matchCategoryHere_head_ne _ (by decide)) h1
  have h3 : searchCategory ('y' :: ':' :: ' ' :: w0 :: (w' ++ ['.'])) = none :=
    searchCategory_cons_of_none (matchCategoryHere_head_ne _ (by decide)) h2
  have h4 : searchCategory ('r' :: 'y' :: ':' :: ' ' :: w0 :: (w' ++ ['.'])) = none :=
    searchCategory_cons_of_none (matchCategoryHere_head_ne _ (by decide)) h3
  have h5 : searchCategory ('o' :: 'r' :: 'y' :: ':' :: ' ' :: w0 :: (w' ++ ['.'])) = none :=
    searchCategory_cons_of_none (matchCategoryHere_head_ne _ (by decide)) h4
  have h6 : searchCategory ('g' :: 'o' :: 'r' :: 'y' :: ':' :: ' ' :: w0 :: (w' ++ ['.'])) = none :=
    searchCategory_cons_of_none (matchCategoryHere_head_ne _ (by decide)) h5
  have h7 : searchCategory ('e' :: 'g' :: 'o' :: 'r' :: 'y' :: ':' :: ' ' :: w0 :: (w' ++ ['.'])) = none :=
    searchCategory_cons_of_none (matchCategoryHere_head_ne _ (by decide)) h6
  have h8 : searchCategory ('t' :: 'e' :: 'g' :: 'o' :: 'r' :: 'y' :: ':' :: ' ' :: w0 :: (w' ++ ['.'])) = none :=
    searchCategory_cons_of_none (matchCategoryHere_head_ne _ (by decide)) h7
  have h9 : searchCategory ('a' :: 't' :: 'e' :: 'g' :: 'o' :: 'r' :: 'y' :: ':' :: ' ' :: w0 :: (w' ++ ['.'])) = none :=
    searchCategory_cons_of_none (matchCategoryHere_head_ne _ (by decide)) h8
  show searchCategory ('C' :: 'a' :: 't' :: 'e' :: 'g' :: 'o' :: 'r' :: 'y' ::
    ':' :: ' ' :: w0 :: (w' ++ ['.'])) = some (w0 :: w')
  rw [searchCategory_cons, h9]
  show matchCategoryHere ('C' :: 'a' :: 't' :: 'e' :: 'g' :: 'o' :: 'r' :: 'y' ::
    ':' :: ' ' :: w0 :: (w' ++ ['.'])) = some (w0 :: w')
  show (let rest := List.dropWhile pyIsSpace (' ' :: w0 :: (w' ++ ['.']));
        let rest := if rest.head? = some lbrace then rest.tail else rest;
        let word := rest.takeWhile Char.isAlpha;
        if word = [] then none else some word) = some (w0 :: w')
  simp only [List.cons_append, List.dropWhile_cons,
    show pyIsSpace ' ' = true from rfl, if_true, hw0.2.2.2, Bool.false_eq_true,
    if_false, List.head?_cons, Option.some.injEq, List.takeWhile_cons,
    halpha w0 (List.mem_cons_self _ _)]
  rw [if_neg (fun he => hw0.2.2.1 he)]
  have ht : List.takeWhile Char.isAlpha (w0 :: (w' ++ ['.'])) = w0 :: w' := by
    rw [List.takeWhile_cons]
    simp only [halpha w0 (List.mem_cons_self _ _), if_true]
    rw [takeWhile_append_singleton
      (fun x hx => halpha x (List.mem_cons_of_mem _ hx)) (by decide)]
  rw [ht]
  simp

/-! ## Scheduler lemmas -/

theorem schedulerStep_perm (s : SchedulerState) (o : Option ResultRecord) :
    List.Perm (allRecords (schedulerStep s o)) (allRecords s ++ o.toList) := by
  cases o with
  | none =>
    unfold schedulerStep allRecords
    simp only []
    split
    · simp only [List.flatten_append, List.flatten_cons, List.flatten_nil,
        List.append_nil, Option.toList_none]
      exact List.Perm.append_left _ (List.reverse_perm _)
    · simp
  | some r =>
    unfold schedulerStep allRecords
    simp only []
    split
    · simp only [List.flatten_append, List.flatten_cons, List.flatten_nil,
        List.append_nil, Option.toList_some]
      rw [List.append_assoc]
      exact List.Perm.append_left _ (List.reverse_perm _)
    · simp [List.append_assoc]

theorem foldl_schedulerStep_perm (stream : List (Option ResultRecord))
    (s : SchedulerState) :
    List.Perm (allRecords (stream.foldl schedulerStep s))
      (allRecords s ++ stream.filterMap id) := by
  induction stream generalizing s with
  | nil => simp
  | cons o rest ih =>
    have h1 : List.Perm (allRecords ((o :: rest).foldl schedulerStep s))
        (allRecords (schedulerStep s o) ++ rest.filterMap id) := ih _
    have h2 : List.Perm (allRecords (schedulerStep s o) ++ rest.filterMap id)
        ((allRecords s ++ o.toList) ++ rest.filterMap id) :=
      (schedulerStep_perm s o).append_right _
    refine (h1.trans h2).trans ?_
    rw [List.append_assoc]
    apply List.Perm.append_left
    cases o <;> simp [List.filterMap_cons]

/-- All records written to the ledger by the scheduler loop are exactly the
successful (non-`None`) results of the completion stream, up to order. -/
theorem run_scheduler_flatten_perm (stream : List (Option ResultRecord)) :
    List.Perm (run_scheduler stream).flatten (stream.filterMap id) := by
  unfold run_scheduler
  simp only [List.flatten_append, List.flatten_cons, List.flatten_nil,
    List.append_nil]
  have h := foldl_schedulerStep_perm stream ⟨[], 0, []⟩
  simpa [allRecords] using h

theorem schedulerStep_count (s : SchedulerState) (o : Option ResultRecord) :
    (schedulerStep s o).completed_count = s.completed_count + 1 := by
  unfold schedulerStep
  simp only []
  split <;> rfl

theorem schedulerStep_flushes_length (s : SchedulerState) (o : Option ResultRecord) :
    (schedulerStep s o).flushes.length =
      s.flushes.length + if (s.completed_count + 1) % 50 = 0 then 1 else 0 := by
  unfold schedulerStep
  simp only []
  split <;> rename_i h
  · simp [h]
  · simp [h]

theorem foldl_schedulerStep_flushes (stream : List (Option ResultRecord))
    (s : SchedulerState) :
    (stream.foldl schedulerStep s).flushes.length =
      s.flushes.length + (s.completed_count + stream.length) / 50
        - s.completed_count / 50 := by
  induction stream generalizing s with
  | nil => simp
  | cons o rest ih =>
    rw [List.foldl_cons, ih (schedulerStep s o), schedulerStep_flushes_length,
      schedulerStep_count, List.length_cons]
    have hsucc : (s.completed_count + 1) / 50 =
        s.completed_count / 50 + if 50 ∣ s.completed_count + 1 then 1 else 0 :=
      Nat.succ_div ..
    have hdvd : (50 ∣ s.completed_count + 1) ↔ (s.completed_count + 1) % 50 = 0 :=
      Nat.dvd_iff_mod_eq_zero ..
    have hmono : s.completed_count / 50 ≤ (s.completed_count + 1) / 50 :=
      Nat.div_le_div_right (Nat.le_succ _)
    have hmono2 : (s.completed_count + 1) / 50 ≤
        (s.completed_count + 1 + rest.length) / 50 :=
      Nat.div_le_div_right (Nat.le_add_right ..)
    have harr : s.completed_count + 1 + rest.length =
        s.completed_count + (rest.length + 1) := by omega
    rw [← harr]
    by_cases hmod : (s.completed_count + 1) % 50 = 0
    · rw [if_pos hmod]
      rw [if_pos (hdvd.mpr hmod)] at hsucc
      omega
    · rw [if_neg hmod]
      rw [if_neg (fun hd => hmod (hdvd.mp hd))] at hsucc
      omega

/-- The total number of append calls issued by the scheduler loop:
one per 50 completions, plus the unconditional final flush. -/
theorem run_scheduler_length (stream : List (Option ResultRecord)) :
    (run_scheduler stream).length = stream.length / 50 + 1 := by
  unfold run_scheduler
  rw [List.length_append, foldl_schedulerStep_flushes stream ⟨[], 0, []⟩]
  simp

/-! ## Parser and task-unit lemmas -/

theorem firstAnswerMatch_eq_none {L : List (List Char)}
    (h : ∀ l ∈ L, searchAnswer (pyStrip l) = none) :
    firstAnswerMatch L = none := by
  induction L with
  | nil => rfl
  | cons l rest ih =>
    unfold firstAnswerMatch
    rw [h l (List.mem_cons_self _ _)]
    exact ih fun x hx => h x (List.mem_cons_of_mem _ hx)

theorem extract_evaluation_mem {s ev : String}
    (h : extract_evaluation s = some ev) :
    ev = "CORRECT" ∨ ev = "INCORRECT" ∨ ev = "DOUBT" ∨ ev = "ERROR" := by
  unfold extract_evaluation at h
  simp only [] at h
  split at h
  · rename_i hmem
    injection h with h
    subst h
    simpa [CATEGORIES] using hmem
  · cases h

theorem process_combination_evaluation {q : Question} {st sys m : String}
    {mr jr : Option String} {r : ResultRecord}
    (h : process_combination q st sys m mr jr = some r) :
    r.evaluation = "CORRECT" ∨ r.evaluation = "INCORRECT" ∨
      r.evaluation = "DOUBT" := by
  rcases mr with _ | mrv
  · simp [process_combination] at h
  rcases jr with _ | jrv
  · simp [process_combination] at h
  rcases hev : extract_evaluation jrv with _ | ev
  · simp [process_combination, hev] at h
  by_cases herr : ev = "ERROR"
  · simp [process_combination, hev, herr] at h
  · simp only [process_combination, hev, herr, if_false, Option.some.injEq] at h
    subst h
    rcases extract_evaluation_mem hev with h | h | h | h
    · exact Or.inl h
    · exact Or.inr (Or.inl h)
    · exact Or.inr (Or.inr h)
    · exact absurd h herr

theorem runTask_key {oracle : Oracle} {c : Combination} {r : ResultRecord}
    (h : runTask oracle c = some r) :
    ResultRecord.key r = combinationKey c := by
  obtain ⟨q, st, sys, m⟩ := c
  rcases hmr : (oracle (q, st, sys, m)).1 with _ | mrv
  · simp [runTask, process_combination, hmr] at h
  rcases hjr : (oracle (q, st, sys, m)).2 with _ | jrv
  · simp [runTask, process_combination, hmr, hjr] at h
  rcases hev : extract_evaluation jrv with _ | ev
  · simp [runTask, process_combination, hmr, hjr, hev] at h
  by_cases herr : ev = "ERROR"
  · simp [runTask, process_combination, hmr, hjr, hev, herr] at h
  · simp only [runTask, process_combination, hmr, hjr, hev, herr, if_false,
      Option.some.injEq] at h
    subst h
    rfl

theorem getLast?_append_right {l₂ : List Char} {y : Char} (l₁ : List Char)
    (h : l₂.getLast? = some y) : (l₁ ++ l₂).getLast? = some y := by
  rw [List.getLast?_append, h]
  rfl

/-! ## Claims -/

/-- C1 (code bug, evaluated at the failing input): when two lines match the
category pattern, `extract_evaluation` returns the word of the FIRST
matching line of the text, because the loop over `reversed(lines)` keeps
overwriting `evaluation` without breaking; the claim (and the spec) say the
last matching line wins. -/
theorem c1_first_matching_line_wins :
    extract_evaluation "Category: CORRECT\nCategory: INCORRECT" =
        some "CORRECT" ∧
      extract_evaluation "Category: INCORRECT\nCategory: CORRECT" =
        some "INCORRECT" :=
  ⟨by decide, by decide⟩

/-- C5: `extract_evaluation` either returns one of the four category words
`CORRECT`, `INCORRECT`, `DOUBT`, `ERROR`, or fails; whenever the captured
word falls outside the closed enumeration (in particular when no line
matches, leaving the empty capture), it takes the hard-failure path. -/
theorem c5_category_closure :
    (∀ s ev, extract_evaluation s = some ev →
        ev = "CORRECT" ∨ ev = "INCORRECT" ∨ ev = "DOUBT" ∨ ev = "ERROR") ∧
    (∀ s, String.mk (captured_evaluation s) ∉ CATEGORIES.map Prod.fst →
        extract_evaluation s = none) := by
  constructor
  · exact fun s ev h => extract_evaluation_mem h
  · intro s hmem
    unfold extract_evaluation
    simp only []
    rw [if_neg hmem]

/-- Witness for C5 at the concrete inputs `Category: DOUBT` (a successful
parse) and `category: \x7bmaybe\x7d` (a captured word outside the enumeration). -/
theorem c5_category_closure_witness :
    (extract_evaluation "Category: DOUBT" = some "DOUBT" ∧
      ("DOUBT" = "CORRECT" ∨ "DOUBT" = "INCORRECT" ∨ "DOUBT" = "DOUBT" ∨
        "DOUBT" = "ERROR")) ∧
    (String.mk (captured_evaluation "category: \x7bmaybe\x7d") ∉
        CATEGORIES.map Prod.fst ∧
      extract_evaluation "category: \x7bmaybe\x7d" = none) :=
  ⟨⟨by decide, c5_category_closure.1 "Category: DOUBT" "DOUBT" (by decide)⟩,
   ⟨by decide, c5_category_closure.2 "category: \x7bmaybe\x7d" (by decide)⟩⟩

/-- C6 counterexample: on an input with no `answer:` line and surrounding
whitespace, `extract_answer` returns the input untrimmed, not trimmed as the
claim states (the fallback `return response` skips the stripping). -/
theorem c6_counterexample :
    extract_answer " hello " ≠ "hello" ∧
      extract_answer " hello " = " hello " :=
  ⟨by decide, by decide⟩

/-- C6 (amended): for every text in which no line matches the `answer:`
pattern, `extract_answer` returns the original text completely unchanged
(without trimming). -/
theorem c6_no_answer_line_returns_original (s : String)
    (h : ∀ line ∈ pySplitLines (pyStrip s.data),
      searchAnswer (pyStrip line) = none) :
    extract_answer s = s := by
  unfold extract_answer
  simp only []
  rw [firstAnswerMatch_eq_none fun l hl => h l (List.mem_reverse.mp hl)]

/-- Witness for the amended C6 at the concrete input `" hello "`. -/
theorem c6_no_answer_line_witness :
    (∀ line ∈ pySplitLines (pyStrip (" hello " : String).data),
        searchAnswer (pyStrip line) = none) ∧
      extract_answer " hello " = " hello " :=
  ⟨by decide, c6_no_answer_line_returns_original " hello " (by decide)⟩

/-- C7 counterexample: on `Answer: \x7b42\x7d` the claim predicts `42` (both
braces excluded) but the code returns `42\x7d`: the greedy capture group
retains the closing brace. -/
theorem c7_counterexample :
    extract_answer "Answer: \x7b42\x7d" ≠ "42" ∧
      extract_answer "Answer: \x7b42\x7d" = "42\x7d" :=
  ⟨by decide, by decide⟩

/-- C7 (amended): for a text whose last line is `Answer: \x7bCONTENT\x7d`
(content free of newlines and colons, preceded by an arbitrary newline-free
earlier line), `extract_answer` returns the stripped capture: the content
with the OPENING brace excluded but the CLOSING brace retained, because the
greedy capture group runs to the end of the line. -/
theorem c7_braced_answer_keeps_closing_brace (a : Char) (p c : List Char)
    (s : String)
    (hs : s.data =
      (a :: p) ++ '\n' :: ("Answer: ".data ++ lbrace :: (c ++ [rbrace])))
    (ha : pyIsSpace a = false) (hp : '\n' ∉ a :: p)
    (hc : ∀ ch ∈ c, ch ≠ '\n' ∧ ch ≠ ':') :
    extract_answer s = String.mk (pyStrip (c ++ [rbrace])) := by
  have hccolon : ':' ∉ c := fun hm => (hc _ hm).2 rfl
  have hy : '\n' ∉ "Answer: ".data ++ lbrace :: (c ++ [rbrace]) := by
    intro hm
    rcases List.mem_append.mp hm with h | h
    · exact absurd h (by decide)
    · rcases List.mem_cons.mp h with h | h
      · exact absurd h (by decide)
      · rcases List.mem_append.mp h with h | h
        · exact absurd rfl (hc _ h).1
        · rw [List.mem_singleton] at h
          exact absurd h (by decide)
  have hlast2 : ("Answer: ".data ++ lbrace :: (c ++ [rbrace])).getLast? =
      some rbrace := by
    apply getLast?_append_right
    show ((lbrace :: c) ++ [rbrace]).getLast? = some rbrace
    exact List.getLast?_concat _
  have hstriplast : pyStrip ("Answer: ".data ++ lbrace :: (c ++ [rbrace])) =
      "Answer: ".data ++ lbrace :: (c ++ [rbrace]) :=
    pyStrip_eq_self (a := 'A') (b := rbrace) rfl (by decide) hlast2 (by decide)
  have hstripL : pyStrip ((a :: p) ++ '\n' ::
      ("Answer: ".data ++ lbrace :: (c ++ [rbrace]))) =
      (a :: p) ++ '\n' :: ("Answer: ".data ++ lbrace :: (c ++ [rbrace])) := by
    refine pyStrip_eq_self (b := rbrace) rfl ha ?_ (by decide)
    refine getLast?_append_right _ ?_
    show (['\n'] ++ ("Answer: ".data ++ lbrace :: (c ++ [rbrace]))).getLast? =
      some rbrace
    exact getLast?_append_right _ hlast2
  have hsplit : pySplitLines ((a :: p) ++ '\n' ::
      ("Answer: ".data ++ lbrace :: (c ++ [rbrace]))) =
      [a :: p, "Answer: ".data ++ lbrace :: (c ++ [rbrace])] := by
    refine pySplitLines_two_lines ?_ hy
    intro hm
    exact hp hm
  have hfam : firstAnswerMatch
      [("Answer: ".data ++ lbrace :: (c ++ [rbrace])), a :: p] =
      some (c ++ [rbrace]) := by
    unfold firstAnswerMatch
    rw [hstriplast, searchAnswer_answer_line c hccolon]
  unfold extract_answer
  simp only []
  rw [hs, hstripL, hsplit]
  show (match firstAnswerMatch
      [("Answer: ".data ++ lbrace :: (c ++ [rbrace])), a :: p] with
    | some g => String.mk (pyStrip g)
    | none => s) = String.mk (pyStrip (c ++ [rbrace]))
  rw [hfam]

/-- Witness for the amended C7 at the concrete text `x`, newline,
`Answer: \x7b42\x7d`: the extractor returns `42\x7d`. -/
theorem c7_braced_answer_witness :
    (pyIsSpace 'x' = false ∧ '\n' ∉ ['x'] ∧
      (∀ ch ∈ ['4', '2'], ch ≠ '\n' ∧ ch ≠ ':')) ∧
    extract_answer "x\nAnswer: \x7b42\x7d" = "42\x7d" := by
  refine ⟨⟨by decide, by decide, by decide⟩, ?_⟩
  have h := c7_braced_answer_keeps_closing_brace 'x' [] ['4', '2']
    "x\nAnswer: \x7b42\x7d" (by decide) (by decide) (by decide) (by decide)
  rw [h]
  decide

/-- C10: the `evaluation not in CATEGORIES` membership test is
case-sensitive although line matching is case-insensitive: for any nonempty
all-letter word outside the exact key set (e.g. a lowercase or mixed-case
spelling of a valid category), the category line does match and captures the
word, yet `extract_evaluation` takes the error path. -/
theorem c10_membership_case_sensitive (w : String) (hw : w ≠ "")
    (halpha : ∀ ch ∈ w.data, ch.isAlpha = true)
    (hmem : w ∉ CATEGORIES.map Prod.fst) :
    captured_evaluation ("Category: " ++ w ++ ".") = w.data ∧
    extract_evaluation ("Category: " ++ w ++ ".") = none := by
  obtain ⟨w0, w', hw'⟩ : ∃ w0 w', w.data = w0 :: w' := by
    cases hd : w.data with
    | nil =>
      exfalso
      apply hw
      cases w with
      | mk d =>
        cases hd
        rfl
    | cons a b => exact ⟨a, b, rfl⟩
  have halphab : ∀ ch ∈ w0 :: w', ch.isAlpha = true := by
    rw [← hw']
    exact halpha
  have hdata : ("Category: " ++ w ++ ".").data =
      "Category: ".data ++ (w0 :: (w' ++ ['.'])) := by
    show ("Category: ".data ++ w.data) ++ ['.'] = _
    rw [hw', List.append_assoc]
    rfl
  have hlastd : ("Category: ".data ++ (w0 :: (w' ++ ['.']))).getLast? =
      some '.' := by
    apply getLast?_append_right
    show ([w0] ++ (w' ++ ['.'])).getLast? = some '.'
    apply getLast?_append_right
    exact List.getLast?_concat _
  have hstrip : pyStrip ("Category: ".data ++ (w0 :: (w' ++ ['.']))) =
      "Category: ".data ++ (w0 :: (w' ++ ['.'])) :=
    pyStrip_eq_self (a := 'C') (b := '.') rfl (by decide) hlastd (by decide)
  have hnl : '\n' ∉ "Category: ".data ++ (w0 :: (w' ++ ['.'])) := by
    intro hm
    rcases List.mem_append.mp hm with h | h
    · exact absurd h (by decide)
    · rcases List.mem_cons.mp h with h | h
      · exact (isAlpha_facts (halphab w0 (List.mem_cons_self _ _))).2.1 h.symm
      · rcases List.mem_append.mp h with h | h
        · exact absurd (halphab _ (List.mem_cons_of_mem _ h)) (by decide)
        · rw [List.mem_singleton] at h
          exact absurd h (by decide)
  have hsplitc : pySplitLines ("Category: ".data ++ (w0 :: (w' ++ ['.']))) =
      ["Category: ".data ++ (w0 :: (w' ++ ['.']))] :=
    pySplitLines_no_newline hnl
  have hsearch := searchCategory_category_line w0 w' halphab
  have hstripw : pyStrip (w0 :: w') = w0 :: w' :=
    pyStrip_of_no_space fun ch hch => (isAlpha_facts (halphab ch hch)).2.2.2
  have hcap : captured_evaluation ("Category: " ++ w ++ ".") = w.data := by
    unfold captured_evaluation
    simp only []
    rw [hdata, hstrip, hsplitc]
    show (match searchCategory
        (pyStrip ("Category: ".data ++ (w0 :: (w' ++ ['.'])))) with
      | some g => pyStrip g
      | none => ([] : List Char)) = w.data
    rw [hstrip, hsearch]
    show pyStrip (w0 :: w') = w.data
    rw [hstripw]
    exact hw'.symm
  refine ⟨hcap, ?_⟩
  unfold extract_evaluation
  simp only []
  rw [hcap]
  show (if w ∈ CATEGORIES.map Prod.fst then some w else none) = none
  rw [if_neg hmem]

/-- Witness for C10 at the concrete word `correct`: the line matches and
captures the lowercase word, but the parser fails. -/
theorem c10_membership_witness :
    (("correct" : String) ≠ "" ∧
      (∀ ch ∈ ("correct" : String).data, ch.isAlpha = true) ∧
      ("correct" : String) ∉ CATEGORIES.map Prod.fst) ∧
    (captured_evaluation "Category: correct." = ("correct" : String).data ∧
      extract_evaluation "Category: correct." = none) := by
  refine ⟨⟨by decide, by decide, by decide⟩, ?_⟩
  exact c10_membership_case_sensitive "correct" (by decide) (by decide)
    (by decide)

/-- C2 counterexample: a stream of 100 completions whose only successes are
the 1st and the 51st task. M = 2 successes with batch size N = 50 give
⌈M/N⌉ = 1 predicted append call, but the run issues 3 append calls (the
flushes after the 50th and 100th completions plus the final flush), 2 of
which write records. -/
theorem c2_counterexample :
    (cexStream.filterMap id).length = 2 ∧
    (2 + 50 - 1) / 50 = 1 ∧
    (run_scheduler cexStream).length = 3 ∧
    ((run_scheduler cexStream).filter fun l => decide (l ≠ [])).length = 2 := by
  set_option maxRecDepth 4000 in
  exact ⟨by decide, by decide, by decide, by decide⟩

/-- C2 (amended): with batch size 50, a run over a completion stream of T
task outcomes (successful or failed) issues exactly ⌊T/50⌋ + 1 append calls
to the ledger file — one per 50 completions plus the unconditional final
flush — any of which may write fewer than 50 records (including zero), and
together the appends write exactly the successful results. -/
theorem c2_append_call_count (stream : List (Option ResultRecord)) :
    (run_scheduler stream).length = stream.length / 50 + 1 ∧
    List.Perm (run_scheduler stream).flatten (stream.filterMap id) :=
  ⟨run_scheduler_length stream, run_scheduler_flatten_perm stream⟩

/-- C3: every record appended to the output ledger carries evaluation
`CORRECT`, `INCORRECT` or `DOUBT`, and a task unit whose judged category is
`ERROR` yields no result, so no record with evaluation `ERROR` is ever
persisted. -/
theorem c3_no_error_persisted :
    (∀ questions system models ledger oracle r,
        r ∈ newRecords questions system models ledger oracle →
          r.evaluation = "CORRECT" ∨ r.evaluation = "INCORRECT" ∨
            r.evaluation = "DOUBT") ∧
    (∀ q st sys m mr jr, extract_evaluation jr = some "ERROR" →
        process_combination q st sys m (some mr) (some jr) = none) := by
  constructor
  · intro questions system models ledger oracle r hr
    have hperm := run_scheduler_flatten_perm
      (taskStream questions system models ledger oracle)
    have hr2 : r ∈ (taskStream questions system models ledger
        oracle).filterMap id := hperm.mem_iff.mp hr
    obtain ⟨o, ho, hid⟩ := List.mem_filterMap.mp hr2
    simp only [id_eq] at hid
    subst hid
    obtain ⟨cmb, hcmb, htask⟩ := List.mem_map.mp ho
    exact process_combination_evaluation htask
  · intro q st sys m mr jr hev
    simp [process_combination, hev]

/-- Witness for C3: the base-variant record of the concrete demo run is
persisted with evaluation `CORRECT`, and a concrete unit judged `ERROR`
yields no result. -/
theorem c3_no_error_persisted_witness :
    ((⟨"Q", "A", "m", false, "Answer: A", "A", "CORRECT"⟩ : ResultRecord) ∈
        newRecords demoQuestions demoSystem demoModels [] demoOracle ∧
      ((⟨"Q", "A", "m", false, "Answer: A", "A", "CORRECT"⟩ :
          ResultRecord).evaluation = "CORRECT" ∨
        (⟨"Q", "A", "m", false, "Answer: A", "A", "CORRECT"⟩ :
          ResultRecord).evaluation = "INCORRECT" ∨
        (⟨"Q", "A", "m", false, "Answer: A", "A", "CORRECT"⟩ :
          ResultRecord).evaluation = "DOUBT")) ∧
    (extract_evaluation "Category: ERROR" = some "ERROR" ∧
      process_combination ⟨"Q", "A"⟩ "base" "b" "m" (some "resp")
        (some "Category: ERROR") = none) :=
  ⟨⟨by decide, c3_no_error_persisted.1 demoQuestions demoSystem demoModels []
      demoOracle _ (by decide)⟩,
   ⟨by decide, c3_no_error_persisted.2 ⟨"Q", "A"⟩ "base" "b" "m" "resp"
      "Category: ERROR" (by decide)⟩⟩

/-- C4: if a first run over a fixed question/model/variant space completes
fully (every scheduled task yields a result) and the ledger is not reset,
then after that run every cross-product key is in the loaded completed set,
a second run over the same space computes zero pending combinations, and
the second run leaves the ledger exactly unchanged (no duplicate keys, no
missing keys). -/
theorem c4_second_run_idempotent (questions : List Question)
    (system : List (String × String)) (models : List String)
    (ledger : List ResultRecord) (oracle oracle2 : Oracle)
    (hfull : ∀ c ∈ pendingCombinations questions system models ledger,
        (runTask oracle c).isSome = true) :
    (∀ c ∈ allCombinations questions system models,
        combinationKey c ∈
          existingResults (main_run questions system models ledger oracle)) ∧
    pendingCombinations questions system models
        (main_run questions system models ledger oracle) = [] ∧
    main_run questions system models
        (main_run questions system models ledger oracle) oracle2 =
      main_run questions system models ledger oracle := by
  have hkeys : ∀ c ∈ allCombinations questions system models,
      combinationKey c ∈
        existingResults (main_run questions system models ledger oracle) := by
    intro c hc
    unfold main_run existingResults
    rw [List.map_append]
    by_cases hmem : combinationKey c ∈ existingResults ledger
    · exact List.mem_append.mpr (Or.inl hmem)
    · have hpend : c ∈ pendingCombinations questions system models ledger := by
        unfold pendingCombinations
        rw [List.mem_filter]
        exact ⟨hc, decide_eq_true hmem⟩
      obtain ⟨r, hr⟩ := Option.isSome_iff_exists.mp (hfull c hpend)
      have hsome : some r ∈ taskStream questions system models ledger oracle :=
        List.mem_map.mpr ⟨c, hpend, hr⟩
      have hrmem : r ∈ newRecords questions system models ledger oracle :=
        (run_scheduler_flatten_perm _).mem_iff.mpr
          (List.mem_filterMap.mpr ⟨some r, hsome, rfl⟩)
      refine List.mem_append.mpr (Or.inr ?_)
      rw [← runTask_key hr]
      exact List.mem_map_of_mem _ hrmem
  have hpend2 : pendingCombinations questions system models
      (main_run questions system models ledger oracle) = [] := by
    unfold pendingCombinations
    rw [List.filter_eq_nil_iff]
    intro c hc hdec
    rw [decide_eq_true_eq] at hdec
    exact hdec (hkeys c hc)
  refine ⟨hkeys, hpend2, ?_⟩
  have hnew2 : newRecords questions system models
      (main_run questions system models ledger oracle) oracle2 = [] := by
    unfold newRecords taskStream
    rw [hpend2]
    rfl
  have hdef : main_run questions system models
      (main_run questions system models ledger oracle) oracle2 =
      main_run questions system models ledger oracle ++
        newRecords questions system models
          (main_run questions system models ledger oracle) oracle2 := rfl
  rw [hdef, hnew2, List.append_nil]

/-- Witness for C4 on the concrete demo run: the first run completes fully,
after it the pending set is empty and a second run leaves the ledger
unchanged. -/
theorem c4_second_run_witness :
    (∀ c ∈ pendingCombinations demoQuestions demoSystem demoModels [],
        (runTask demoOracle c).isSome = true) ∧
    ((∀ c ∈ allCombinations demoQuestions demoSystem demoModels,
        combinationKey c ∈ existingResults
          (main_run demoQuestions demoSystem demoModels [] demoOracle)) ∧
      pendingCombinations demoQuestions demoSystem demoModels
          (main_run demoQuestions demoSystem demoModels [] demoOracle) = [] ∧
      main_run demoQuestions demoSystem demoModels
          (main_run demoQuestions demoSystem demoModels [] demoOracle)
          demoOracle =
        main_run demoQuestions demoSystem demoModels [] demoOracle) :=
  ⟨by decide, c4_second_run_idempotent demoQuestions demoSystem demoModels []
    demoOracle demoOracle (by decide)⟩

/-- C8: failures are isolated at the unit boundary: a unit whose answering
call or judging call raises returns no result, and the scheduler never
aborts — the ledger receives exactly the successful results of the
completion stream, so failing units are not recorded and all other units'
results still are. -/
theorem c8_failures_isolated :
    (∀ q st sys m jr, process_combination q st sys m none jr = none) ∧
    (∀ q st sys m mr, process_combination q st sys m mr none = none) ∧
    ∀ questions system models ledger oracle,
      List.Perm (newRecords questions system models ledger oracle)
        ((taskStream questions system models ledger oracle).filterMap id) :=
  ⟨fun _ _ _ _ _ => rfl,
   fun q st sys m mr => by cases mr <;> rfl,
   fun questions system models ledger oracle => run_scheduler_flatten_perm _⟩
